import Mathlib

/-!
Shallow embedding of the `fluid-fetch` HTTP client core: the middleware
manager (`MwManager.ts`) and the request-execution pipeline of
`FluidFetch` / `FluidFetchRequest` (cache store, pending-request
registry, dedup, timeout, cleanup).

Conventions of the embedding:
* JavaScript `Map` objects are association lists with the exact
  `get` / `set` / `delete` semantics of `Map` (insertion order kept,
  `set` replaces in place).
* Promise-returning middleware functions are modelled as functions into
  `Except FFError`; a thrown error is `Except.error`.
* `AbortController` identity is a `Nat` tag; aborting is recorded as an
  event in an execution trace together with the abort reason.
* Timestamps and durations are `Int` milliseconds; `Date.now()` is an
  explicit `now` parameter.
* The single asynchronous suspension at `await fetch(...)` is modelled
  by a `mid : FFState → FFState` parameter: the state transformation
  performed by other interleaved flows while this call awaits the
  transport (the spec's cooperative-scheduling model).  The transport
  outcome itself is a `TransportEvent` oracle.
-/

/-- Errors surfaced by the pipeline.  `TimeoutError` from the source is the
`timeout` constructor; a plain `abortController.abort()` (explicit cancel or
dedup supersession) carries `abortError`; network failures from `fetch` are
`transport`; errors thrown by user middleware are `user`. -/
inductive FFError where
  | timeout (msg : String)
  | abortError
  | transport (msg : String)
  | user (msg : String)
deriving DecidableEq

/-- One registered middleware entry of `MiddlewareManager` (MwManager.ts):
a `fulfilled` transform, an optional `rejected` recovery function, and the
numeric id handed out at registration. -/
structure Handler (T : Type) where
  fulfilled : T → Except FFError T
  rejected : Option (FFError → Except FFError T)
  id : Nat

/-- The `MiddlewareManager<T>` state: the handler list and the monotonically
increasing id counter. -/
structure MwManager (T : Type) where
  handlers : List (Handler T)
  idCounter : Nat

/-- A fresh `new MiddlewareManager()`: empty handler list, counter 0. -/
def MwManager.mk0 {T : Type} : MwManager T := ⟨[], 0⟩

/-- `use(fulfilled, rejected?)`: push the handler with id = current counter,
increment the counter, return the id. -/
def MwManager.use {T : Type} (m : MwManager T)
    (fulfilled : T → Except FFError T)
    (rejected : Option (FFError → Except FFError T)) : MwManager T × Nat :=
  let id := m.idCounter
  (⟨m.handlers ++ [⟨fulfilled, rejected, id⟩], m.idCounter + 1⟩, id)

/-- `eject(id)`: `findIndex` of the first handler with this id; if found
(`index !== -1`), `splice(index, 1)` removes that one element. -/
def MwManager.eject {T : Type} (m : MwManager T) (id : Nat) : MwManager T :=
  match m.handlers.findIdx? (fun h => h.id == id) with
  | some index => ⟨m.handlers.eraseIdx index, m.idCounter⟩
  | none => m

/-- `clear()`: drop all handlers (the counter is not reset). -/
def MwManager.clear {T : Type} (m : MwManager T) : MwManager T :=
  ⟨[], m.idCounter⟩

/-- The loop body of `runMiddlewares`: fold the current value through the
handler list; `try { result = await handler.fulfilled(result) } catch` —
on failure use `handler.rejected` if present (its own failure propagates),
otherwise rethrow. -/
def runHandlersAux {T : Type} : List (Handler T) → T → Except FFError T
  | [], v => .ok v
  | h :: rest, v =>
    match h.fulfilled v with
    | .ok w => runHandlersAux rest w
    | .error e =>
      match h.rejected with
      | some rej =>
        match rej e with
        | .ok w => runHandlersAux rest w
        | .error e2 => .error e2
      | none => .error e

/-- `runMiddlewares(value)`: run the whole current handler list. -/
def MwManager.runMiddlewares {T : Type} (m : MwManager T) (v : T) :
    Except FFError T :=
  runHandlersAux m.handlers v

/-- A client-visible operation on one middleware chain: `use` or `eject`. -/
inductive MwOp (T : Type) where
  | use (fulfilled : T → Except FFError T)
        (rejected : Option (FFError → Except FFError T))
  | eject (id : Nat)

/-- Apply a sequence of `use`/`eject` operations to a manager. -/
def applyOps {T : Type} : List (MwOp T) → MwManager T → MwManager T
  | [], m => m
  | .use f r :: ops, m => applyOps ops (MwManager.use m f r).1
  | .eject i :: ops, m => applyOps ops (m.eject i)

/-- Specification-side reading of the same operation sequence: `use`
appends the new handler at the end (registration order), `eject i` skips
(filters out) every handler carrying id `i`.  Used to compare the source's
`findIndex`/`splice` implementation against the spec's words. -/
def specApply {T : Type} :
    List (MwOp T) → List (Handler T) × Nat → List (Handler T) × Nat
  | [], s => s
  | .use f r :: ops, (hs, c) => specApply ops (hs ++ [⟨f, r, c⟩], c + 1)
  | .eject i :: ops, (hs, c) => specApply ops (hs.filter (fun h => h.id != i), c)

/-- Scalar query-parameter values (`string | number | boolean`). -/
inductive PVal where
  | s (v : String)
  | n (v : Int)
  | b (v : Bool)
deriving DecidableEq

/-- The request `cache` directive (`boolean | number`, possibly absent). -/
inductive CacheDirective where
  | bool (b : Bool)
  | num (n : Int)
deriving DecidableEq

/-- The four supported HTTP methods. -/
inductive HttpMethod where
  | GET
  | POST
  | PUT
  | DELETE
deriving DecidableEq

/-- String form of a method, as interpolated into the cache key. -/
def HttpMethod.toStr : HttpMethod → String
  | .GET => "GET"
  | .POST => "POST"
  | .PUT => "PUT"
  | .DELETE => "DELETE"

/-- A transport response; `clone()` produces an independent copy with the
same content. -/
structure Response where
  body : String
deriving DecidableEq

/-- `Response.clone()`: an independent copy carrying the same content. -/
def Response.clone (r : Response) : Response := ⟨r.body⟩

/-- One cache-store entry: the stored response and its absolute expiry
timestamp. -/
structure CacheEntry where
  response : Response
  expires : Int
deriving DecidableEq

/-- The request description built by the facade and mutated by the
chainable methods: method, url, body payload, headers, query params, cache
directive, timeout, and the identity tag of the exclusively-owned
`AbortController`. -/
structure Request where
  method : HttpMethod
  url : String
  data : Option String
  headers : List (String × String)
  params : List (String × PVal)
  cache : Option CacheDirective
  timeout : Option Int
  abortController : Nat

/-- `JSON.stringify` of a scalar parameter value. -/
def stringifyPVal : PVal → String
  | .s v => "\"" ++ v ++ "\""
  | .n v => toString v
  | .b v => if v then "true" else "false"

/-- `JSON.stringify` of the params object: entries in insertion order. -/
def stringifyParams (ps : List (String × PVal)) : String :=
  "\x7b" ++
    String.intercalate ","
      (ps.map (fun p => "\"" ++ p.1 ++ "\":" ++ stringifyPVal p.2)) ++
    "\x7d"

/-- `_getCacheKey(request)`: the fingerprint
`method + ":" + url + ":" + JSON.stringify(params)`. -/
def getCacheKey (r : Request) : String :=
  r.method.toStr ++ ":" ++ r.url ++ ":" ++ stringifyParams r.params

/-- `Map.prototype.get`: first (unique) binding of the key, if any. -/
def mapGet {α : Type} : List (String × α) → String → Option α
  | [], _ => none
  | (k', v) :: rest, k => if k' = k then some v else mapGet rest k

/-- `Map.prototype.set`: replace the binding in place when the key is
present, else append the new binding at the end. -/
def mapSet {α : Type} : List (String × α) → String → α → List (String × α)
  | [], k, v => [(k, v)]
  | (k', v') :: rest, k, v =>
    if k' = k then (k, v) :: rest else (k', v') :: mapSet rest k v

/-- `Map.prototype.delete`: remove the (unique) binding of the key. -/
def mapDelete {α : Type} : List (String × α) → String → List (String × α)
  | [], _ => []
  | (k', v') :: rest, k => if k' = k then rest else (k', v') :: mapDelete rest k

/-- The mutable state of one `FluidFetch` client instance: the cache map
and the pending-requests map (fingerprint to `AbortController` tag). -/
structure FFState where
  cache : List (String × CacheEntry)
  pendingRequests : List (String × Nat)
deriving DecidableEq

/-- `getCachedResponse(cacheKey)`: return the entry's response when present
and not expired (`entry.expires > Date.now()`); an expired entry is deleted
by the same lookup; returns `undefined` otherwise. -/
def getCachedResponse (st : FFState) (cacheKey : String) (now : Int) :
    Option Response × FFState :=
  match mapGet st.cache cacheKey with
  | some entry =>
    if entry.expires > now then (some entry.response, st)
    else (none, { st with cache := mapDelete st.cache cacheKey })
  | none => (none, st)

/-- `getPendingRequest(cacheKey)`. -/
def getPendingRequest (st : FFState) (cacheKey : String) : Option Nat :=
  mapGet st.pendingRequests cacheKey

/-- `registerPendingRequest(cacheKey, controller)`: unconditional `set`. -/
def registerPendingRequest (st : FFState) (cacheKey : String)
    (controller : Nat) : FFState :=
  { st with pendingRequests := mapSet st.pendingRequests cacheKey controller }

/-- `removePendingRequest(cacheKey)`: unconditional `delete`. -/
def removePendingRequest (st : FFState) (cacheKey : String) : FFState :=
  { st with pendingRequests := mapDelete st.pendingRequests cacheKey }

/-- `cacheResponse(cacheKey, response, ttl?)`: store the response with
expiry `Date.now() + duration`, where the duration defaults to 3600000 ms
(one hour) unless `ttl` is a number. -/
def cacheResponse (st : FFState) (cacheKey : String) (response : Response)
    (ttl : Option Int) (now : Int) : FFState :=
  let duration := match ttl with
    | some n => n
    | none => 3600000
  { st with cache := mapSet st.cache cacheKey ⟨response, now + duration⟩ }

/-- Truthiness of `request.cache` as tested by `if (request.cache)`:
absent is falsy, a boolean is its own truth value, a number is truthy
unless zero. -/
def cacheTruthy : Option CacheDirective → Bool
  | none => false
  | some (.bool b) => b
  | some (.num n) => n != 0

/-- The third argument of the cache write,
`typeof request.cache === 'boolean' ? undefined : request.cache`. -/
def cacheTtlArg : Option CacheDirective → Option Int
  | some (.num n) => some n
  | _ => none

/-- Effective cache duration for a directive: the number itself when the
directive is numeric, else `cacheResponse`'s 3600000 ms default. -/
def directiveTtl (c : Option CacheDirective) : Int :=
  match cacheTtlArg c with
  | some n => n
  | none => 3600000

/-- The chainable `FluidFetchRequest.cache(ttl)` method: a boolean argument
(either value) stores the number `60 * 60 * 1000`; a numeric argument is
stored as given. -/
def FluidFetchRequest.cache (r : Request) (ttl : CacheDirective) : Request :=
  { r with cache := some (match ttl with
      | .bool _ => .num (60 * 60 * 1000)
      | .num n => .num n) }

/-- Observable events emitted while one `_executeRequest` run progresses,
in program order: controller aborts (with the abort reason, `none` for a
plain `abort()`), pending-registry registration, the transport (`fetch`)
invocation, and the response middleware pass. -/
inductive Event where
  | aborted (controller : Nat) (reason : Option FFError)
  | registeredPending (cacheKey : String) (controller : Nat)
  | transportCalled
  | responseMwRan
deriving DecidableEq

/-- Oracle for the transport: either `fetch` settles (with a response or a
failure) before any armed timeout fires, or it does not settle in time. -/
inductive TransportEvent where
  | settles (res : Except FFError Response)
  | hangs

/-- Outcome of one `_executeRequest` run: the promise resolves, rejects, or
(transport hung with no armed timeout) never settles. -/
inductive ExecOutcome where
  | ok (r : Response)
  | err (e : FFError)
  | neverSettles
deriving DecidableEq

/-- `FluidFetchRequest._executeRequest`, step by step:
request middleware pass; fingerprint; cache check (early return of a clone
on hit); dedup abort of any pending controller for the fingerprint;
registration of this call's controller; timeout arming
(`request.timeout && request.timeout > 0`); the `fetch` call (at whose
`await` the interleaving `mid` is applied); response middleware pass; cache
write; and the `finally` block (`removePendingRequest`) on every settled
path.  Returns the outcome, the final state, and the event trace. -/
def executeRequest (reqMw : MwManager Request) (respMw : MwManager Response)
    (st : FFState) (r : Request) (now : Int) (tev : TransportEvent)
    (mid : FFState → FFState) : ExecOutcome × FFState × List Event :=
  match reqMw.runMiddlewares r with
  | .error e => (.err e, st, [])
  | .ok req =>
    let cacheKey := getCacheKey req
    match (if cacheTruthy req.cache then getCachedResponse st cacheKey now
           else (none, st)) with
    | (some cached, st1) => (.ok cached.clone, st1, [])
    | (none, st1) =>
      let tr0 : List Event :=
        match getPendingRequest st1 cacheKey with
        | some prior => [.aborted prior none]
        | none => []
      let st2 := registerPendingRequest st1 cacheKey req.abortController
      let tr2 := tr0 ++ [.registeredPending cacheKey req.abortController,
                         .transportCalled]
      let st3 := mid st2
      match tev with
      | .settles (.ok resp) =>
        match respMw.runMiddlewares resp with
        | .ok processed =>
          let st4 := if cacheTruthy req.cache then
              cacheResponse st3 cacheKey processed.clone
                (cacheTtlArg req.cache) now
            else st3
          (.ok processed, removePendingRequest st4 cacheKey,
           tr2 ++ [.responseMwRan])
        | .error e =>
          (.err e, removePendingRequest st3 cacheKey, tr2 ++ [.responseMwRan])
      | .settles (.error e) =>
        (.err e, removePendingRequest st3 cacheKey, tr2)
      | .hangs =>
        match req.timeout with
        | some t =>
          if 0 < t then
            let msg := "Request timed out after " ++ toString t ++ "ms"
            (.err (.timeout msg), removePendingRequest st3 cacheKey,
             tr2 ++ [.aborted req.abortController (some (.timeout msg))])
          else (.neverSettles, st2, tr2)
        | none => (.neverSettles, st2, tr2)

/-- Invariant of a `MiddlewareManager` handler list: every id was handed
out below the counter, and ids are pairwise distinct. -/
def MwInv {T : Type} (hs : List (Handler T)) (c : Nat) : Prop :=
  (∀ h ∈ hs, h.id < c) ∧ (hs.map Handler.id).Nodup

/-- A plain GET request description with no params, headers, cache or
timeout, used as a concrete input in witnesses. -/
def plainGet (url : String) (ctrl : Nat) : Request :=
  { method := .GET, url := url, data := none, headers := [], params := [],
    cache := none, timeout := none, abortController := ctrl }

section HelperLemmas

theorem runHandlersAux_append {T : Type} (a b : List (Handler T)) (v : T) :
    runHandlersAux (a ++ b) v =
      match runHandlersAux a v with
      | .ok w => runHandlersAux b w
      | .error e => .error e := by
  induction a generalizing v with
  | nil => rfl
  | cons h t ih =>
    simp only [List.cons_append, runHandlersAux]
    cases hf : h.fulfilled v with
    | ok w => exact ih w
    | error e =>
      cases h.rejected with
      | none => rfl
      | some rej =>
        dsimp only
        cases hr : rej e with
        | ok w => exact ih w
        | error e2 => rfl

theorem findIdxQ_shift {T : Type} (p : T → Bool) (l : List T) (i : Nat) :
    List.findIdx? p l (i + 1) = (List.findIdx? p l i).map (fun k => k + 1) := by
  induction l generalizing i with
  | nil => rfl
  | cons a t ih =>
    rw [List.findIdx?_cons, List.findIdx?_cons]
    by_cases h : p a
    · simp [h]
    · simp [h, ih]

theorem eject_filter {T : Type} (hs : List (Handler T)) (c j : Nat)
    (hnd : (hs.map Handler.id).Nodup) :
    MwManager.eject ⟨hs, c⟩ j = ⟨hs.filter (fun h => h.id != j), c⟩ := by
  induction hs with
  | nil => rfl
  | cons h t ih =>
    rw [List.map_cons, List.nodup_cons] at hnd
    obtain ⟨hnotin, hndt⟩ := hnd
    by_cases hid : h.id = j
    · have hfind : (h :: t).findIdx? (fun h => h.id == j) = some 0 := by
        rw [List.findIdx?_cons]
        simp [hid]
      have hfilt : t.filter (fun h => h.id != j) = t :=
        List.filter_eq_self.mpr (fun a ha => by
          have hne : a.id ≠ j := fun hEq =>
            hnotin (hid ▸ hEq ▸ List.mem_map_of_mem Handler.id ha)
          simp [hne])
      simp [MwManager.eject, hfind, List.filter_cons, hid, hfilt]
    · have hbeq : (h.id == j) = false := by simp [hid]
      have hfind : (h :: t).findIdx? (fun h => h.id == j)
          = (t.findIdx? (fun h => h.id == j)).map (fun k => k + 1) := by
        rw [List.findIdx?_cons, hbeq]
        simp [findIdxQ_shift (fun h : Handler T => h.id == j) t 0]
      have iht := ih hndt
      cases hft : t.findIdx? (fun h => h.id == j) with
      | none =>
        simp only [MwManager.eject, hft] at iht
        have hteq : t.filter (fun h => h.id != j) = t := by
          have := congrArg MwManager.handlers iht
          simpa using this.symm
        simp [MwManager.eject, hfind, hft, List.filter_cons, hid, hteq]
      | some i =>
        simp only [MwManager.eject, hft] at iht
        have herase : t.eraseIdx i = t.filter (fun h => h.id != j) := by
          have := congrArg MwManager.handlers iht
          simpa using this
        simp [MwManager.eject, hfind, hft, List.filter_cons, hid, herase]

end HelperLemmas

section MapLemmas

theorem mapGet_mapSet_self {α : Type} (m : List (String × α)) (k : String)
    (v : α) : mapGet (mapSet m k v) k = some v := by
  induction m with
  | nil => simp [mapSet, mapGet]
  | cons p rest ih =>
    by_cases h : p.1 = k
    · simp [mapSet, mapGet, h]
    · simp [mapSet, mapGet, h, ih]

theorem mapDelete_mapSet_self {α : Type} (m : List (String × α)) (k : String)
    (v : α) : mapDelete (mapSet m k v) k = mapDelete m k := by
  induction m with
  | nil => simp [mapSet, mapDelete]
  | cons p rest ih =>
    by_cases h : p.1 = k
    · simp [mapSet, mapDelete, h]
    · simp [mapSet, mapDelete, h, ih]

theorem mapGet_eq_none_of_not_mem {α : Type} (m : List (String × α))
    (k : String) (h : k ∉ m.map Prod.fst) : mapGet m k = none := by
  induction m with
  | nil => rfl
  | cons p rest ih =>
    simp only [List.map_cons, List.mem_cons] at h
    push_neg at h
    have hne : ¬ p.1 = k := fun hEq => h.1 hEq.symm
    simp [mapGet, hne, ih h.2]

theorem mapGet_mapDelete_self {α : Type} (m : List (String × α)) (k : String)
    (hnd : (m.map Prod.fst).Nodup) : mapGet (mapDelete m k) k = none := by
  induction m with
  | nil => rfl
  | cons p rest ih =>
    rw [List.map_cons, List.nodup_cons] at hnd
    obtain ⟨hnotin, hndr⟩ := hnd
    by_cases h : p.1 = k
    · simp only [mapDelete, h, if_pos]
      exact mapGet_eq_none_of_not_mem rest k (h ▸ hnotin)
    · simp [mapDelete, mapGet, h, ih hndr]

theorem getCachedResponse_pending (st : FFState) (k : String) (now : Int) :
    ((getCachedResponse st k now).2).pendingRequests = st.pendingRequests := by
  unfold getCachedResponse
  cases mapGet st.cache k with
  | none => rfl
  | some entry =>
    by_cases h : entry.expires > now <;> simp [h]

end MapLemmas

section MwInvLemmas

theorem mwInv_use {T : Type} (hs : List (Handler T)) (c : Nat)
    (f : T → Except FFError T) (r : Option (FFError → Except FFError T))
    (h : MwInv hs c) : MwInv (hs ++ [⟨f, r, c⟩]) (c + 1) := by
  obtain ⟨hlt, hnd⟩ := h
  constructor
  · intro a ha
    rcases List.mem_append.mp ha with hin | hin
    · exact Nat.lt_succ_of_lt (hlt a hin)
    · simp only [List.mem_singleton] at hin
      subst hin
      exact Nat.lt_succ_self c
  · rw [List.map_append]
    simp only [List.map_cons, List.map_nil]
    rw [List.nodup_append]
    refine ⟨hnd, List.nodup_singleton c, ?_⟩
    intro a ha hb
    simp only [List.mem_singleton] at hb
    subst hb
    rcases List.mem_map.mp ha with ⟨x, hx, hxa⟩
    exact absurd (hxa ▸ hlt x hx) (lt_irrefl a)

theorem mwInv_filter {T : Type} (hs : List (Handler T)) (c j : Nat)
    (h : MwInv hs c) : MwInv (hs.filter (fun h => h.id != j)) c := by
  obtain ⟨hlt, hnd⟩ := h
  constructor
  · intro a ha
    exact hlt a (List.mem_of_mem_filter ha)
  · exact List.Nodup.sublist
      (List.Sublist.map Handler.id (List.filter_sublist hs)) hnd

theorem applyOps_eq_specApply {T : Type} (ops : List (MwOp T))
    (hs : List (Handler T)) (c : Nat) (hinv : MwInv hs c) :
    applyOps ops ⟨hs, c⟩ =
      ⟨(specApply ops (hs, c)).1, (specApply ops (hs, c)).2⟩ := by
  induction ops generalizing hs c with
  | nil => rfl
  | cons op rest ih =>
    cases op with
    | use f r =>
      simp only [applyOps, specApply, MwManager.use]
      exact ih (hs ++ [⟨f, r, c⟩]) (c + 1) (mwInv_use hs c f r hinv)
    | eject j =>
      simp only [applyOps, specApply]
      rw [eject_filter hs c j hinv.2]
      exact ih _ c (mwInv_filter hs c j hinv)

end MwInvLemmas

section ExecutorLemmas

theorem executeRequest_mw_error {T : MwManager Request} {respMw : MwManager Response}
    {st : FFState} {r : Request} {now : Int} (tev : TransportEvent)
    (mid : FFState → FFState) {e : FFError}
    (hmw : T.runMiddlewares r = .error e) :
    executeRequest T respMw st r now tev mid = (.err e, st, []) := by
  unfold executeRequest
  rw [hmw]

theorem executeRequest_cache_hit {reqMw : MwManager Request}
    {respMw : MwManager Response} {st st1 : FFState} {r req : Request}
    {now : Int} (tev : TransportEvent) (mid : FFState → FFState)
    {cached : Response}
    (hmw : reqMw.runMiddlewares r = .ok req)
    (hcs : (if cacheTruthy req.cache then
        getCachedResponse st (getCacheKey req) now else (none, st))
      = (some cached, st1)) :
    executeRequest reqMw respMw st r now tev mid = (.ok cached.clone, st1, []) := by
  unfold executeRequest
  rw [hmw]
  dsimp only
  rw [hcs]

theorem executeRequest_after_miss {reqMw : MwManager Request}
    {respMw : MwManager Response} {st st1 : FFState} {r req : Request}
    {now : Int} (tev : TransportEvent) (mid : FFState → FFState)
    (hmw : reqMw.runMiddlewares r = .ok req)
    (hcs : (if cacheTruthy req.cache then
        getCachedResponse st (getCacheKey req) now else (none, st))
      = (none, st1)) :
    executeRequest reqMw respMw st r now tev mid =
      (let cacheKey := getCacheKey req
       let tr0 : List Event :=
         match getPendingRequest st1 cacheKey with
         | some prior => [.aborted prior none]
         | none => []
       let st2 := registerPendingRequest st1 cacheKey req.abortController
       let tr2 := tr0 ++ [.registeredPending cacheKey req.abortController,
                          .transportCalled]
       let st3 := mid st2
       match tev with
       | .settles (.ok resp) =>
         match respMw.runMiddlewares resp with
         | .ok processed =>
           let st4 := if cacheTruthy req.cache then
               cacheResponse st3 cacheKey processed.clone
                 (cacheTtlArg req.cache) now
             else st3
           (.ok processed, removePendingRequest st4 cacheKey,
            tr2 ++ [.responseMwRan])
         | .error e =>
           (.err e, removePendingRequest st3 cacheKey, tr2 ++ [.responseMwRan])
       | .settles (.error e) =>
         (.err e, removePendingRequest st3 cacheKey, tr2)
       | .hangs =>
         match req.timeout with
         | some t =>
           if 0 < t then
             let msg := "Request timed out after " ++ toString t ++ "ms"
             (.err (.timeout msg), removePendingRequest st3 cacheKey,
              tr2 ++ [.aborted req.abortController (some (.timeout msg))])
           else (.neverSettles, st2, tr2)
         | none => (.neverSettles, st2, tr2)) := by
  unfold executeRequest
  rw [hmw]
  dsimp only
  rw [hcs]

end ExecutorLemmas

/-- Claim C5: the fingerprint (`_getCacheKey`) is a deterministic function
of method, URL and serialized query parameters only: two request
descriptions that agree on those three fields receive equal fingerprints,
whatever their headers, bodies, cache directives, timeouts or controllers. -/
theorem fingerprint_ignores_headers_and_body (r1 r2 : Request)
    (hm : r1.method = r2.method) (hu : r1.url = r2.url)
    (hp : r1.params = r2.params) :
    getCacheKey r1 = getCacheKey r2 := by
  unfold getCacheKey
  rw [hm, hu, hp]

/-- Witness for C5: same method, URL and params but different headers,
bodies, cache directives, timeouts and controllers give the same key. -/
theorem fingerprint_ignores_headers_and_body_witness :
    getCacheKey ⟨.GET, "/users", some "payload",
        [("Authorization", "Bearer t")], [("page", .n 1)], none, none, 1⟩
      = getCacheKey ⟨.GET, "/users", none,
        [("X-Trace", "1")], [("page", .n 1)], some (.bool true), some 5000, 2⟩ :=
  fingerprint_ignores_headers_and_body _ _ rfl rfl rfl

/-- Claim C9: `getCachedResponse` returns the stored response exactly when
an entry is present and the current time is strictly before its expiry;
otherwise it returns none, and an expired entry has been deleted by that
same lookup, so it is absent afterwards (eviction-on-read). -/
theorem cache_lookup_eviction_on_read (st : FFState) (k : String) (now : Int)
    (hnd : (st.cache.map Prod.fst).Nodup) :
    (∀ e, mapGet st.cache k = some e → now < e.expires →
        getCachedResponse st k now = (some e.response, st))
    ∧ (∀ e, mapGet st.cache k = some e → ¬ now < e.expires →
        getCachedResponse st k now
            = (none, { st with cache := mapDelete st.cache k })
          ∧ mapGet (getCachedResponse st k now).2.cache k = none)
    ∧ (mapGet st.cache k = none → getCachedResponse st k now = (none, st)) := by
  refine ⟨?_, ?_, ?_⟩
  · intro e he hlt
    unfold getCachedResponse
    rw [he]
    simp [hlt]
  · intro e he hge
    have hrun : getCachedResponse st k now
        = (none, { st with cache := mapDelete st.cache k }) := by
      unfold getCachedResponse
      rw [he]
      simp [hge]
    refine ⟨hrun, ?_⟩
    rw [hrun]
    exact mapGet_mapDelete_self st.cache k hnd
  · intro he
    unfold getCachedResponse
    rw [he]

/-- Witness for C9: a lookup at exactly the stored expiry misses and
evicts the entry. -/
theorem cache_lookup_eviction_on_read_witness :
    getCachedResponse ⟨[("k", ⟨⟨"old"⟩, 5⟩)], []⟩ "k" 5
        = (none, ⟨[], []⟩)
    ∧ mapGet (getCachedResponse ⟨[("k", ⟨⟨"old"⟩, 5⟩)], []⟩ "k" 5).2.cache "k"
        = none :=
  (cache_lookup_eviction_on_read ⟨[("k", ⟨⟨"old"⟩, 5⟩)], []⟩ "k" 5
      (by decide)).2.1 ⟨⟨"old"⟩, 5⟩ (by decide) (by decide)

/-- Claim C10: the chainable `cache(ttl)` method stores the number
`60 * 60 * 1000` for any boolean argument — including `false` — so the
executor's `if (request.cache)` guard sees a truthy directive with the
one-hour duration; only a numeric argument is stored as the given ttl. -/
theorem cache_method_boolean_always_truthy (r : Request) :
    (∀ b : Bool, (FluidFetchRequest.cache r (.bool b)).cache
          = some (.num 3600000)
        ∧ cacheTruthy (FluidFetchRequest.cache r (.bool b)).cache = true
        ∧ directiveTtl (FluidFetchRequest.cache r (.bool b)).cache = 3600000)
    ∧ (∀ n : Int, (FluidFetchRequest.cache r (.num n)).cache
          = some (.num n)) := by
  constructor
  · intro b
    refine ⟨by norm_num [FluidFetchRequest.cache], ?_, ?_⟩
    · simp [FluidFetchRequest.cache, cacheTruthy]
    · norm_num [FluidFetchRequest.cache, directiveTtl, cacheTtlArg]
  · intro n
    rfl

/-- Claim C7: in a middleware run, a handler's recovery function is
consulted exactly when its transform fails: on success the next handler
receives the transform's output and `rejected` is never consulted; on
failure with a recovery present, the recovery's output becomes the current
value for the rest of the chain (its own failure propagates); on failure
with no recovery, the run rejects with that failure at once and the
remaining handlers (the equation's right side is independent of `rest`)
are not executed. -/
theorem mw_recover_exactly_on_failure {T : Type} (h : Handler T)
    (rest : List (Handler T)) (v : T) :
    (∀ w, h.fulfilled v = .ok w →
        runHandlersAux (h :: rest) v = runHandlersAux rest w)
    ∧ (∀ e rej w, h.fulfilled v = .error e → h.rejected = some rej →
        rej e = .ok w →
        runHandlersAux (h :: rest) v = runHandlersAux rest w)
    ∧ (∀ e rej e2, h.fulfilled v = .error e → h.rejected = some rej →
        rej e = .error e2 →
        runHandlersAux (h :: rest) v = .error e2)
    ∧ (∀ e, h.fulfilled v = .error e → h.rejected = none →
        runHandlersAux (h :: rest) v = .error e) := by
  refine ⟨?_, ?_, ?_, ?_⟩
  · intro w hf
    simp only [runHandlersAux]
    rw [hf]
  · intro e rej w hf hr hrej
    simp only [runHandlersAux]
    rw [hf]
    dsimp only
    rw [hr]
    dsimp only
    rw [hrej]
  · intro e rej e2 hf hr hrej
    simp only [runHandlersAux]
    rw [hf]
    dsimp only
    rw [hr]
    dsimp only
    rw [hrej]
  · intro e hf hr
    simp only [runHandlersAux]
    rw [hf]
    dsimp only
    rw [hr]

/-- Witness for C7: a failing transform with a recovery that substitutes 7,
followed by an increment handler, continues the chain from 7. -/
theorem mw_recover_exactly_on_failure_witness :
    runHandlersAux
        [⟨fun _ => .error (.user "boom"), some (fun _ => .ok 7), 0⟩,
         ⟨fun n => .ok (n + 1), none, 1⟩] (0 : Nat)
      = runHandlersAux [⟨fun n => .ok (n + 1), none, 1⟩] 7 :=
  (mw_recover_exactly_on_failure
      ⟨fun _ => .error (.user "boom"), some (fun _ => .ok 7), 0⟩
      [⟨fun n => .ok (n + 1), none, 1⟩] 0).2.1
    (.user "boom") (fun _ => .ok 7) 7 rfl rfl rfl

/-- Claim C8: when a request-phase middleware transform fails and carries
no recovery handler, the whole call rejects with exactly that failure, the
returned state equals the initial state (no fingerprint/cache/dedup
bookkeeping happened), and the event trace is empty — in particular the
transport was never invoked. -/
theorem request_mw_failure_blocks_transport
    (reqMw : MwManager Request) (respMw : MwManager Response) (st : FFState)
    (r r1 : Request) (now : Int) (tev : TransportEvent)
    (mid : FFState → FFState) (e : FFError)
    (pre post : List (Handler Request)) (h : Handler Request)
    (hh : reqMw.handlers = pre ++ h :: post)
    (hpre : runHandlersAux pre r = .ok r1)
    (hfail : h.fulfilled r1 = .error e)
    (hnorec : h.rejected = none) :
    executeRequest reqMw respMw st r now tev mid = (.err e, st, []) := by
  have hrun : reqMw.runMiddlewares r = .error e := by
    unfold MwManager.runMiddlewares
    rw [hh, runHandlersAux_append, hpre]
    dsimp only
    simp only [runHandlersAux]
    rw [hfail]
    dsimp only
    rw [hnorec]
  exact executeRequest_mw_error tev mid hrun

/-- Witness for C8: middleware M1 adds a header, M2 throws with no
recovery; the call rejects with M2's failure, leaves the state unchanged
and emits no event (no transport call). -/
theorem request_mw_failure_blocks_transport_witness :
    executeRequest
        ⟨[⟨fun q => .ok { q with headers := [("X-Trace", "1")] }, none, 0⟩,
          ⟨fun _ => .error (.user "M2 failed"), none, 1⟩], 2⟩
        MwManager.mk0 ⟨[], []⟩ (plainGet "/users" 1) 0
        (.settles (.ok ⟨"body"⟩)) id
      = (.err (.user "M2 failed"), ⟨[], []⟩, []) :=
  request_mw_failure_blocks_transport _ _ _ _
    { plainGet "/users" 1 with headers := [("X-Trace", "1")] } _ _ _ _
    [⟨fun q => .ok { q with headers := [("X-Trace", "1")] }, none, 0⟩] []
    ⟨fun _ => .error (.user "M2 failed"), none, 1⟩ rfl rfl rfl rfl

/-- Claim C6: for every sequence of `use`/`eject` operations from a fresh
manager, the surviving handler list equals the registration-order list with
ejected ids filtered out (so `runMiddlewares` applies exactly the remaining
handlers in original registration order), ejecting an id that is not
present is a no-op, and running an empty chain returns the initial value
unchanged. -/
theorem mw_chain_order_skip_and_empty {T : Type} (ops : List (MwOp T))
    (v : T) (j : Nat) (m : MwManager T)
    (hj : j ∉ m.handlers.map Handler.id) :
    (applyOps ops MwManager.mk0).handlers = (specApply ops ([], 0)).1
    ∧ (applyOps ops MwManager.mk0).runMiddlewares v
        = runHandlersAux (specApply ops ([], 0)).1 v
    ∧ m.eject j = m
    ∧ MwManager.mk0.runMiddlewares v = (.ok v : Except FFError T) := by
  have hmain := applyOps_eq_specApply ops ([] : List (Handler T)) 0
    ⟨fun h hmem => absurd hmem (List.not_mem_nil h), List.nodup_nil⟩
  have hhandlers : (applyOps ops MwManager.mk0).handlers
      = (specApply ops ([], 0)).1 := by
    rw [show (MwManager.mk0 : MwManager T) = ⟨[], 0⟩ from rfl, hmain]
  refine ⟨hhandlers, ?_, ?_, rfl⟩
  · unfold MwManager.runMiddlewares
    rw [hhandlers]
  · have hfind : m.handlers.findIdx? (fun h => h.id == j) = none := by
      rw [List.findIdx?_eq_none_iff]
      intro x hx
      have hne : x.id ≠ j := fun hEq =>
        hj (hEq ▸ List.mem_map_of_mem Handler.id hx)
      simp [hne]
    unfold MwManager.eject
    rw [hfind]

/-- Witness for C6: register two handlers, eject the first; running applies
only the second, and ejecting the absent id 5 is a no-op. -/
theorem mw_chain_order_skip_and_empty_witness :
    (applyOps [.use (fun n => .ok (n + 1)) none,
               .use (fun n => .ok (n * 2)) none,
               .eject 0] (MwManager.mk0 : MwManager Nat)).runMiddlewares 10
        = runHandlersAux
            (specApply [.use (fun n => .ok (n + 1)) none,
                        .use (fun n => .ok (n * 2)) none,
                        .eject 0] ([], 0)).1 10
    ∧ (MwManager.mk0 : MwManager Nat).eject 5 = MwManager.mk0
    ∧ (MwManager.mk0 : MwManager Nat).runMiddlewares 10 = .ok 10 := by
  have h := mw_chain_order_skip_and_empty
    [.use (fun n => .ok (n + 1)) none,
     .use (fun n => .ok (n * 2)) none,
     .eject 0] 10 5 (MwManager.mk0 : MwManager Nat)
    (by simp [MwManager.mk0])
  exact ⟨h.2.1, h.2.2.1, h.2.2.2⟩

/-- Claim C2: when a call executes with a prior handle registered under its
fingerprint and no cache hit, its event trace begins with the abort of that
prior controller (a plain `abort()`, the cancellation failure delivered to
the first caller) immediately followed by the registration of its own
controller — so the prior call is cancelled before this call performs any
further step and in particular before it completes. -/
theorem dedup_aborts_prior_before_registering
    (reqMw : MwManager Request) (respMw : MwManager Response) (st : FFState)
    (r req : Request) (now : Int) (tev : TransportEvent) (prior : Nat)
    (hmw : reqMw.runMiddlewares r = .ok req)
    (hmiss : (if cacheTruthy req.cache then
        getCachedResponse st (getCacheKey req) now else (none, st)).1 = none)
    (hpend : mapGet st.pendingRequests (getCacheKey req) = some prior) :
    ∃ rest : List Event,
      (executeRequest reqMw respMw st r now tev id).2.2
        = .aborted prior none
            :: .registeredPending (getCacheKey req) req.abortController
            :: rest := by
  rcases hp : (if cacheTruthy req.cache then
      getCachedResponse st (getCacheKey req) now else (none, st)) with ⟨o, st1⟩
  rw [hp] at hmiss
  dsimp only at hmiss
  subst hmiss
  have hpend1 : getPendingRequest st1 (getCacheKey req) = some prior := by
    unfold getPendingRequest
    have hpd : st1.pendingRequests = st.pendingRequests := by
      by_cases hct : cacheTruthy req.cache
      · rw [if_pos hct] at hp
        have hgp := getCachedResponse_pending st (getCacheKey req) now
        rw [hp] at hgp
        exact hgp
      · rw [if_neg hct] at hp
        injection hp with h1 h2
        rw [← h2]
    rw [hpd]
    exact hpend
  rw [executeRequest_after_miss tev id hmw hp]
  dsimp only
  rw [hpend1]
  dsimp only
  cases tev with
  | settles res =>
    cases res with
    | ok resp =>
      dsimp only
      cases hrm : respMw.runMiddlewares resp with
      | ok processed =>
        dsimp only
        exact ⟨[.transportCalled, .responseMwRan], by simp⟩
      | error e2 =>
        dsimp only
        exact ⟨[.transportCalled, .responseMwRan], by simp⟩
    | error e2 =>
      dsimp only
      exact ⟨[.transportCalled], by simp⟩
  | hangs =>
    dsimp only
    cases hto : req.timeout with
    | some t =>
      dsimp only
      by_cases hpos : 0 < t
      · rw [if_pos hpos]
        exact ⟨[.transportCalled,
            .aborted req.abortController
              (some (.timeout ("Request timed out after " ++ toString t ++ "ms")))],
          by simp⟩
      · rw [if_neg hpos]
        exact ⟨[.transportCalled], by simp⟩
    | none =>
      dsimp only
      exact ⟨[.transportCalled], by simp⟩

/-- Witness for C2: with controller 7 pending under the fingerprint of a
plain GET, the next call's trace starts with aborting 7 then registering
its own controller 3. -/
theorem dedup_aborts_prior_before_registering_witness :
    ∃ rest : List Event,
      (executeRequest MwManager.mk0 MwManager.mk0
          ⟨[], [(getCacheKey (plainGet "/u" 3), 7)]⟩ (plainGet "/u" 3) 0
          (.settles (.ok ⟨"ok"⟩)) id).2.2
        = .aborted 7 none
            :: .registeredPending (getCacheKey (plainGet "/u" 3)) 3 :: rest :=
  dedup_aborts_prior_before_registering _ _ _ _ (plainGet "/u" 3) _ _ 7
    rfl rfl (by simp [mapGet])

/-- Claim C3: with a positive configured timeout, when the transport does
not settle in time the call's own controller is aborted carrying a
`TimeoutError` and the call rejects with that same timeout-kind failure — a
kind distinct from transport failures and from plain cancellation. -/
theorem timeout_rejects_with_timeout_kind
    (reqMw : MwManager Request) (respMw : MwManager Response) (st : FFState)
    (r req : Request) (now : Int) (t : Int)
    (hmw : reqMw.runMiddlewares r = .ok req)
    (hmiss : (if cacheTruthy req.cache then
        getCachedResponse st (getCacheKey req) now else (none, st)).1 = none)
    (ht : req.timeout = some t) (hpos : 0 < t) :
    (executeRequest reqMw respMw st r now .hangs id).1
        = .err (.timeout ("Request timed out after " ++ toString t ++ "ms"))
    ∧ Event.aborted req.abortController
          (some (.timeout ("Request timed out after " ++ toString t ++ "ms")))
        ∈ (executeRequest reqMw respMw st r now .hangs id).2.2
    ∧ (∀ s, FFError.timeout ("Request timed out after " ++ toString t ++ "ms")
        ≠ FFError.transport s)
    ∧ FFError.timeout ("Request timed out after " ++ toString t ++ "ms")
        ≠ FFError.abortError := by
  rcases hp : (if cacheTruthy req.cache then
      getCachedResponse st (getCacheKey req) now else (none, st)) with ⟨o, st1⟩
  rw [hp] at hmiss
  dsimp only at hmiss
  subst hmiss
  rw [executeRequest_after_miss .hangs id hmw hp]
  dsimp only
  rw [ht]
  dsimp only
  rw [if_pos hpos]
  refine ⟨rfl, ?_, fun s h => FFError.noConfusion h,
    fun h => FFError.noConfusion h⟩
  cases hgp : getPendingRequest st1 (getCacheKey req) with
  | some prior => simp
  | none => simp

/-- Witness for C3: `timeout(10)` on a call whose transport never settles
rejects with the timeout-kind failure and aborts its controller with it. -/
theorem timeout_rejects_with_timeout_kind_witness :
    (executeRequest MwManager.mk0 MwManager.mk0 ⟨[], []⟩
          { plainGet "/u" 1 with timeout := some 10 } 0 .hangs id).1
        = .err (.timeout ("Request timed out after " ++ toString (10 : Int) ++ "ms"))
    ∧ Event.aborted 1
          (some (.timeout ("Request timed out after " ++ toString (10 : Int) ++ "ms")))
        ∈ (executeRequest MwManager.mk0 MwManager.mk0 ⟨[], []⟩
            { plainGet "/u" 1 with timeout := some 10 } 0 .hangs id).2.2 := by
  have h := timeout_rejects_with_timeout_kind MwManager.mk0 MwManager.mk0
    ⟨[], []⟩ { plainGet "/u" 1 with timeout := some 10 }
    { plainGet "/u" 1 with timeout := some 10 } 0 10 rfl rfl rfl (by decide)
  exact ⟨h.1, h.2.1⟩

/-- Claim C4: with a truthy cache directive and a cold cache, the first
call performs the transport, returns the processed response and stores a
clone of it under the fingerprint with expiry `now + ttl` (`directiveTtl`
is the number given, or the 3600000 ms default for a boolean directive);
any second call on the resulting state within the TTL returns a clone of
the stored response immediately with an unchanged state and an empty event
trace — no transport call, no response middleware, pending registry
untouched. -/
theorem cache_roundtrip_hit_is_clone_no_transport
    (reqMw : MwManager Request) (respMw : MwManager Response) (st : FFState)
    (r req : Request) (now now2 : Int) (resp processed : Response)
    (hmw : reqMw.runMiddlewares r = .ok req)
    (hct : cacheTruthy req.cache = true)
    (hmiss : mapGet st.cache (getCacheKey req) = none)
    (hrmw : respMw.runMiddlewares resp = .ok processed)
    (hfresh : now2 < now + directiveTtl req.cache) :
    (executeRequest reqMw respMw st r now (.settles (.ok resp)) id).1
        = .ok processed
    ∧ Event.transportCalled
        ∈ (executeRequest reqMw respMw st r now (.settles (.ok resp)) id).2.2
    ∧ mapGet (executeRequest reqMw respMw st r now (.settles (.ok resp)) id
          ).2.1.cache (getCacheKey req)
        = some ⟨processed.clone, now + directiveTtl req.cache⟩
    ∧ (∀ tev2 : TransportEvent,
        executeRequest reqMw respMw
            (executeRequest reqMw respMw st r now (.settles (.ok resp)) id).2.1
            r now2 tev2 id
          = (.ok processed.clone.clone,
             (executeRequest reqMw respMw st r now (.settles (.ok resp)) id).2.1,
             []))
    ∧ (∀ b : Bool, directiveTtl (some (.bool b)) = 3600000) := by
  have htrue : (true = true) := rfl
  unfold directiveTtl at hfresh
  have hcs : (if cacheTruthy req.cache then
      getCachedResponse st (getCacheKey req) now else (none, st))
      = (none, st) := by
    rw [hct, if_pos htrue]
    unfold getCachedResponse
    rw [hmiss]
  rw [executeRequest_after_miss (.settles (.ok resp)) id hmw hcs]
  dsimp only
  rw [hrmw]
  dsimp only
  rw [hct, if_pos htrue]
  refine ⟨rfl, ?_, ?_, ?_, fun b => rfl⟩
  · cases hgp : getPendingRequest st (getCacheKey req) with
    | some prior => simp
    | none => simp
  · simp only [removePendingRequest, cacheResponse, registerPendingRequest, id]
    rw [mapGet_mapSet_self]
    unfold directiveTtl
    rfl
  · intro tev2
    refine executeRequest_cache_hit tev2 id hmw ?_
    rw [hct, if_pos htrue]
    unfold getCachedResponse
    simp only [removePendingRequest, cacheResponse, registerPendingRequest, id]
    rw [mapGet_mapSet_self]
    dsimp only
    rw [if_pos hfresh]

/-- Witness for C4: `cache(true)`-style GET (directive `bool true`), cold
cache, transport returns a body; the stored entry and the second call's
clone and empty trace, concretely. -/
theorem cache_roundtrip_hit_is_clone_no_transport_witness :
    (executeRequest MwManager.mk0 MwManager.mk0 ⟨[], []⟩
          { plainGet "/users" 1 with cache := some (.bool true) } 0
          (.settles (.ok ⟨"body"⟩)) id).1
        = .ok ⟨"body"⟩
    ∧ mapGet (executeRequest MwManager.mk0 MwManager.mk0 ⟨[], []⟩
          { plainGet "/users" 1 with cache := some (.bool true) } 0
          (.settles (.ok ⟨"body"⟩)) id).2.1.cache
          (getCacheKey { plainGet "/users" 1 with cache := some (.bool true) })
        = some ⟨Response.clone ⟨"body"⟩, 0 + directiveTtl (some (.bool true))⟩
    ∧ executeRequest MwManager.mk0 MwManager.mk0
          (executeRequest MwManager.mk0 MwManager.mk0 ⟨[], []⟩
            { plainGet "/users" 1 with cache := some (.bool true) } 0
            (.settles (.ok ⟨"body"⟩)) id).2.1
          { plainGet "/users" 1 with cache := some (.bool true) } 10
          (.settles (.error (.transport "unused"))) id
        = (.ok (Response.clone (Response.clone ⟨"body"⟩)),
           (executeRequest MwManager.mk0 MwManager.mk0 ⟨[], []⟩
             { plainGet "/users" 1 with cache := some (.bool true) } 0
             (.settles (.ok ⟨"body"⟩)) id).2.1,
           []) := by
  have h := cache_roundtrip_hit_is_clone_no_transport MwManager.mk0
    MwManager.mk0 ⟨[], []⟩
    { plainGet "/users" 1 with cache := some (.bool true) }
    { plainGet "/users" 1 with cache := some (.bool true) }
    0 10 ⟨"body"⟩ ⟨"body"⟩ rfl rfl rfl rfl (by decide)
  exact ⟨h.1, h.2.2.1, h.2.2.2.1 (.settles (.error (.transport "unused")))⟩

/-- Claim C1 counterexample: a call with controller 1 registers itself,
then while it awaits the transport a superseding call registers controller
2 under the same fingerprint; when the first call settles (with the abort
failure the superseder inflicted on it), its cleanup runs although the
registry entry points at controller 2 ≠ 1 — and the entry is gone
afterwards, so the cleanup did not leave the newer registration unchanged. -/
theorem cleanup_erases_newer_registration_cex :
    mapGet (registerPendingRequest
          (registerPendingRequest ⟨[], []⟩ (getCacheKey (plainGet "/u" 1)) 1)
          (getCacheKey (plainGet "/u" 1)) 2).pendingRequests
        (getCacheKey (plainGet "/u" 1)) = some 2
    ∧ (2 : Nat) ≠ 1
    ∧ mapGet ((executeRequest MwManager.mk0 MwManager.mk0 ⟨[], []⟩
            (plainGet "/u" 1) 0 (.settles (.error .abortError))
            (fun s => registerPendingRequest s (getCacheKey (plainGet "/u" 1)) 2)
          ).2.1).pendingRequests (getCacheKey (plainGet "/u" 1)) = none := by
  refine ⟨?_, by decide, ?_⟩
  · simp [registerPendingRequest, mapSet, mapGet]
  · rfl

/-- Claim C1 amended: the cleanup step after a call settles removes the
fingerprint's pending-registry entry unconditionally — it does not check
that the entry still points at this call's own controller — so when a
superseding call has re-registered the same fingerprint during the await,
the superseded call's cleanup erases the newer registration. -/
theorem cleanup_removes_pending_unconditionally
    (reqMw : MwManager Request) (respMw : MwManager Response) (st : FFState)
    (r req : Request) (now : Int) (c2 : Nat) (res : Except FFError Response)
    (hmw : reqMw.runMiddlewares r = .ok req)
    (hct : cacheTruthy req.cache = false)
    (hnd : (st.pendingRequests.map Prod.fst).Nodup) :
    mapGet ((executeRequest reqMw respMw st r now (.settles res)
          (fun s => registerPendingRequest s (getCacheKey req) c2)).2.1
        ).pendingRequests (getCacheKey req) = none := by
  have hcs : (if cacheTruthy req.cache then
      getCachedResponse st (getCacheKey req) now else (none, st))
      = (none, st) := by
    rw [hct]
    rfl
  rw [executeRequest_after_miss (.settles res) _ hmw hcs]
  cases res with
  | ok resp =>
    dsimp only
    cases hrm : respMw.runMiddlewares resp with
    | ok processed =>
      dsimp only
      rw [hct, if_neg Bool.false_ne_true]
      simp only [removePendingRequest, registerPendingRequest]
      rw [mapDelete_mapSet_self, mapDelete_mapSet_self]
      exact mapGet_mapDelete_self st.pendingRequests (getCacheKey req) hnd
    | error e =>
      dsimp only
      simp only [removePendingRequest, registerPendingRequest]
      rw [mapDelete_mapSet_self, mapDelete_mapSet_self]
      exact mapGet_mapDelete_self st.pendingRequests (getCacheKey req) hnd
  | error e =>
    dsimp only
    simp only [removePendingRequest, registerPendingRequest]
    rw [mapDelete_mapSet_self, mapDelete_mapSet_self]
    exact mapGet_mapDelete_self st.pendingRequests (getCacheKey req) hnd

/-- Witness for the amended C1: concrete superseded call with controller 3,
superseder registering controller 5; after the superseded call's cleanup
the fingerprint has no registration at all. -/
theorem cleanup_removes_pending_unconditionally_witness :
    mapGet ((executeRequest MwManager.mk0 MwManager.mk0 ⟨[], []⟩
          (plainGet "/x" 3) 0 (.settles (.error (.transport "net")))
          (fun s => registerPendingRequest s (getCacheKey (plainGet "/x" 3)) 5)
        ).2.1).pendingRequests (getCacheKey (plainGet "/x" 3)) = none :=
  cleanup_removes_pending_unconditionally MwManager.mk0 MwManager.mk0
    ⟨[], []⟩ (plainGet "/x" 3) (plainGet "/x" 3) 0 5
    (.error (.transport "net")) rfl rfl (by simp)
